import Mathlib

/-!
Verification of the Stock-analyst repository's two core routines against its
specification:

* `_fetch_json_rows` in `fetch_cafef_trade_data.py` — the paginated collector;
* `aggregate_trade_data` in `fetch_smoney_trade_data.py` — the horizon aggregator.

The Python code is shallowly embedded: parsed JSON bodies become an inductive
`Json` type, the relevant Python primitives (`dict.get`, `in`, `list.extend`,
`>=`) are modelled with their error behaviour made explicit via `Except`, the
unbounded `while True` pagination loop is modelled with explicit fuel, and the
pandas operations used by the aggregator (`copy`, `set_index`, `ffill`,
`resample(...).agg(...)`, `reset_index`) are modelled over a concrete
column-named table type with exact rational arithmetic.
-/

/-- A parsed JSON value, as returned by `response.json()`.  JSON `null` is
Python `None`; numbers are modelled as integers (the fields the collector
inspects — `TotalCount`, page indices — are integral). -/
inductive Json where
  | null
  | bool (b : Bool)
  | num (n : Int)
  | str (s : String)
  | list (xs : List Json)
  | obj (kvs : List (String × Json))

/-- Errors the embedded Python fragments can raise. -/
inductive PyError where
  | attributeError
  | typeError
deriving DecidableEq

/-- First value bound to `k` in an association list (Python dict lookup;
the dicts built by the code have distinct keys, so first-match suffices). -/
def lookupKV (kvs : List (String × Json)) (k : String) : Option Json :=
  match kvs with
  | [] => none
  | (k', v) :: rest => if k' = k then some v else lookupKV rest k

/-- Is the JSON value Python `None`? -/
def Json.isNull : Json → Bool
  | .null => true
  | _ => false

/-- Python `"x" == v` for a JSON value `v`: only a string can compare equal. -/
def jsonEqStr (k : String) : Json → Bool
  | .str s => k = s
  | _ => false

/-- Python `s.upper()` (ASCII case mapping — all strings the code
upper-cases are ASCII period labels). -/
def strUpper (s : String) : String := String.mk (s.data.map Char.toUpper)

/-- Python `s.lower()` (ASCII case mapping). -/
def strLower (s : String) : String := String.mk (s.data.map Char.toLower)

/-- Python `s.startswith(pre)`. -/
def strStartsWith (s pre : String) : Bool := pre.toList.isPrefixOf s.toList

/-- Python substring test `needle in hay` on strings. -/
def containsSubstring (hay needle : String) : Bool :=
  (List.range (hay.toList.length + 1)).any fun i =>
    needle.toList.isPrefixOf (hay.toList.drop i)

/-- Python `j.get(k, d)`: dictionary lookup with default; raises
`AttributeError` when `j` is not a dict. -/
def pyGet (j : Json) (k : String) (d : Json) : Except PyError Json :=
  match j with
  | .obj kvs => .ok ((lookupKV kvs k).getD d)
  | _ => .error .attributeError

/-- Python `k in j` for a string `k`: key test on dicts, membership on lists,
substring test on strings; `TypeError` otherwise. -/
def pyIn (k : String) (j : Json) : Except PyError Bool :=
  match j with
  | .obj kvs => .ok (lookupKV kvs k).isSome
  | .list xs => .ok (xs.any (jsonEqStr k))
  | .str s => .ok (containsSubstring s k)
  | _ => .error .typeError

/-- Python `rows.extend(v)`: appends the elements of an iterable; iterating a
string yields its characters, iterating a dict yields its keys; `TypeError`
for non-iterables. -/
def pyExtend (rows : List Json) (v : Json) : Except PyError (List Json) :=
  match v with
  | .list xs => .ok (rows ++ xs)
  | .str s => .ok (rows ++ s.toList.map (fun c => .str (String.mk [c])))
  | .obj kvs => .ok (rows ++ kvs.map (fun kv => .str kv.1))
  | _ => .error .typeError

/-- Python `len(rows) >= total_count` where `total_count` holds a JSON value:
defined for numbers (and booleans, which are ints in Python); `TypeError`
otherwise — in particular when `total_count` is still `None`. -/
def pyGeLen (n : Nat) (t : Json) : Except PyError Bool :=
  match t with
  | .num m => .ok (decide ((n : Int) ≥ m))
  | .bool b => .ok (decide ((n : Int) ≥ (if b then 1 else 0)))
  | _ => .error .typeError

/-- The record-list extraction of `_fetch_json_rows` (lines 111–117): try the
shallow path `data_section[list_key]` when the key is present, otherwise fall
back to `data_section.get("Data", {}).get(list_key, [])`.  Either `get`
defaults — an absent key yields the default, not an error. -/
def extractRecords (dataSection : Json) (listKey : String) : Except PyError Json :=
  match pyIn listKey dataSection with
  | .error e => .error e
  | .ok true => pyGet dataSection listKey (.list [])
  | .ok false =>
    match pyGet dataSection "Data" (.obj []) with
    | .error e => .error e
    | .ok inner => pyGet inner listKey (.list [])

/-- A value a request parameter can take (the code uses strings and ints). -/
inductive ParamVal where
  | s (v : String)
  | n (v : Nat)
deriving DecidableEq

/-- The `params` dict built on every page request (lines 84–90): `StartDate`
and `EndDate` are always present, holding whatever string was supplied — the
defaults are the empty string, so an unsupplied bound is sent as an empty
value, not omitted. -/
def buildParams (symbol start_date end_date : String)
    (pageIndex pageSize : Nat) : List (String × ParamVal) :=
  [("Symbol", .s symbol),
   ("StartDate", .s start_date),
   ("EndDate", .s end_date),
   ("PageIndex", .n pageIndex),
   ("PageSize", .n pageSize)]

/-- The `while True` pagination loop of `_fetch_json_rows` (lines 83–125),
with explicit fuel.  `respond p` is the parsed JSON body returned for page
`p`; `totalCount` is the Python variable `total_count` (initially `None`,
i.e. `Json.null`); `reqs` counts page requests issued so far.  Result
`some (rows, reqs)` is normal termination, `none` means the loop was still
running when the fuel ran out.  Each iteration, in source order: read the
top-level `"Data"` section, capture `TotalCount` if `total_count is None`,
locate the record list, extend `rows`, then break iff
`len(rows) >= total_count`.  There is no other exit from the loop. -/
def fetchLoop (respond : Nat → Json) (listKey : String) :
    Nat → Nat → List Json → Json → Nat →
    Except PyError (Option (List Json × Nat))
  | 0, _, _, _, _ => .ok none
  | fuel + 1, pageIndex, rows, totalCount, reqs =>
    match pyGet (respond pageIndex) "Data" (.obj []) with
    | .error e => .error e
    | .ok dataSection =>
      match
        (if totalCount.isNull then pyGet dataSection "TotalCount" (.num 0)
         else .ok totalCount) with
      | .error e => .error e
      | .ok totalCount' =>
        match extractRecords dataSection listKey with
        | .error e => .error e
        | .ok records =>
          match pyExtend rows records with
          | .error e => .error e
          | .ok rows' =>
            match pyGeLen rows'.length totalCount' with
            | .error e => .error e
            | .ok stop =>
              if stop then .ok (some (rows', reqs + 1))
              else
                fetchLoop respond listKey fuel (pageIndex + 1) rows'
                  totalCount' (reqs + 1)

/-- `_fetch_json_rows` against an abstract transport: `server` maps the
request parameters to the parsed response body.  Pagination starts at page
index 1 with an empty row list and `total_count = None`. -/
def fetch_json_rows (server : List (String × ParamVal) → Json)
    (symbol listKey : String) (start_date : String := "")
    (end_date : String := "") (page_size : Nat := 2000) (fuel : Nat := 1000) :
    Except PyError (Option (List Json × Nat)) :=
  fetchLoop (fun p => server (buildParams symbol start_date end_date p page_size))
    listKey fuel 1 [] .null 0


/-! ### The horizon aggregator (`fetch_smoney_trade_data.aggregate_trade_data`)

A pandas `DataFrame` is modelled as an ordered list of column names together
with rows that map each column name to a cell.  Numeric data is modelled with
exact rationals; `Cell.na` is a missing value (`NaN`/`NaT`), `Cell.date` a
`datetime64` value at day precision, counted in days since 1970-01-01. -/

/-- One table cell. -/
inductive Cell where
  | na
  | num (q : ℚ)
  | date (d : Nat)
deriving DecidableEq

/-- One table row: an assignment of a cell to each column name. -/
abbrev Row := List (String × Cell)

/-- A column-named table. -/
structure DataFrame where
  cols : List String
  rows : List Row
deriving DecidableEq

/-- The cell a row holds for column `c` (pandas label lookup). -/
def rowCell (r : Row) (c : String) : Cell :=
  match r with
  | [] => .na
  | (c', v) :: rest => if c' = c then v else rowCell rest c

/-- Replace the cell a row holds for column `c`. -/
def setCell (r : Row) (c : String) (v : Cell) : Row :=
  r.map (fun p => if p.1 = c then (p.1, v) else p)

/-- Drop column `c` from a row (first occurrence). -/
def dropCol (r : Row) (c : String) : Row :=
  match r with
  | [] => []
  | (c', v) :: rest => if c' = c then rest else (c', v) :: dropCol rest c

/-- Numeric content of a cell, if any. -/
def cellNum? : Cell → Option ℚ
  | .num q => some q
  | _ => none

/-- Date content of a cell, if any. -/
def cellDate? : Cell → Option Nat
  | .date d => some d
  | _ => none

/-- `df.copy()`: an independent frame with the same contents (our frames are
immutable values, so a deep copy is the value itself). -/
def DataFrame.copy (df : DataFrame) : DataFrame := df

/-- `df.reset_index(drop=True)`: discard the index, keeping rows in order.
The model stores no separate index, so this is the identity. -/
def DataFrame.reset_index_drop (df : DataFrame) : DataFrame := df

/-- A date-indexed frame, as produced by `df.set_index("date")`. -/
structure IndexedFrame where
  cols : List String
  rows : List (Cell × Row)
deriving DecidableEq

/-- `df.set_index(key)`: move column `key` out of the columns and use its
cells as the index. -/
def set_index (df : DataFrame) (key : String) : IndexedFrame :=
  { cols := df.cols.erase key
  , rows := df.rows.map (fun r => (rowCell r key, dropCol r key)) }

/-- Forward-fill one column down the rows (`Series.ffill`): a missing cell
takes the most recent non-missing value above it; leading missing cells are
left missing. -/
def ffillColGo (c : String) (carry : Option Cell) :
    List (Cell × Row) → List (Cell × Row)
  | [] => []
  | (d, r) :: rest =>
    match rowCell r c with
    | .na => (d, setCell r c (carry.getD .na)) :: ffillColGo c carry rest
    | v => (d, r) :: ffillColGo c (some v) rest

/-- `df[cum_cols] = df[cum_cols].ffill()`: forward-fill each listed column
independently. -/
def ffillCols (cs : List String) (rows : List (Cell × Row)) :
    List (Cell × Row) :=
  cs.foldl (fun rs c => ffillColGo c none rs) rows

/-- The aggregation rules pandas is handed (`"last"` / `"sum"` / `"mean"`). -/
inductive AggRule where
  | last
  | sum
  | mean
deriving DecidableEq

/-- The `agg_map` entry for one column (lines 174–184): columns containing
`"cumulative"` (the `cum_cols` list computed over `df.columns`) take the last
value; otherwise a `total_` prefix sums; otherwise a name containing
`"price"` case-insensitively averages; anything else also averages. -/
def aggRuleOf (cols : List String) (col : String) : AggRule :=
  if col ∈ cols.filter (fun c => containsSubstring c "cumulative") then .last
  else if strStartsWith col "total_" then .sum
  else if containsSubstring (strLower col) "price" then .mean
  else .mean

/-- Apply one aggregation rule to the cells of one bucket, with pandas
missing-value semantics: `sum` skips missing cells and is `0` on an empty
bucket; `mean` skips missing cells and is missing when nothing remains;
`last` is the last non-missing cell, missing when there is none. -/
def applyAgg : AggRule → List Cell → Cell
  | .sum, cs => .num ((cs.filterMap cellNum?).sum)
  | .mean, cs =>
    match cs.filterMap cellNum? with
    | [] => .na
    | qs => .num (qs.sum / qs.length)
  | .last, cs =>
    match (cs.filter (fun c => c ≠ .na)).getLast? with
    | some c => c
    | none => .na

/-! Calendar arithmetic for the resampling frequencies.  Dates are days since
1970-01-01 (a Thursday); the civil-calendar conversions are the standard
era-based algorithms over truncating integer division. -/

/-- Day of week of day number `d`, with `0` = Sunday. -/
def dayOfWeek (d : Nat) : Nat := (d + 4) % 7

/-- (year, month, day) of a day number. -/
def civilFromDays (z0 : Int) : Int × Int × Int :=
  let z := z0 + 719468
  let era := (if z ≥ 0 then z else z - 146096) / 146097
  let doe := z - era * 146097
  let yoe := (doe - doe / 1460 + doe / 36524 - doe / 146096) / 365
  let y := yoe + era * 400
  let doy := doe - (365 * yoe + yoe / 4 - yoe / 100)
  let mp := (5 * doy + 2) / 153
  let dd := doy - (153 * mp + 2) / 5 + 1
  let m := mp + (if mp < 10 then 3 else -9)
  (y + (if m ≤ 2 then 1 else 0), m, dd)

/-- Day number of a civil (year, month, day). -/
def daysFromCivil (y0 m d : Int) : Int :=
  let y := y0 - (if m ≤ 2 then 1 else 0)
  let era := (if y ≥ 0 then y else y - 399) / 400
  let yoe := y - era * 400
  let doy := (153 * (m + (if m > 2 then -3 else 9)) + 2) / 5 + d - 1
  let doe := yoe * 365 + yoe / 4 - yoe / 100 + doy
  era * 146097 + doe - 719468

/-- Gregorian leap year. -/
def isLeap (y : Int) : Bool := y % 4 = 0 && (y % 100 ≠ 0 || y % 400 = 0)

/-- Number of days in a month. -/
def daysInMonth (y m : Int) : Int :=
  if m = 2 then (if isLeap y then 29 else 28)
  else if m = 4 ∨ m = 6 ∨ m = 9 ∨ m = 11 then 30
  else 31

/-- Last day of the month containing day number `d`. -/
def monthEnd (d : Nat) : Nat :=
  match civilFromDays (d : Int) with
  | (y, m, _) => (daysFromCivil y m (daysInMonth y m)).toNat

/-- Last day of the calendar quarter containing day number `d`. -/
def quarterEnd (d : Nat) : Nat :=
  match civilFromDays (d : Int) with
  | (y, m, _) =>
    let qm := if m ≤ 3 then 3 else if m ≤ 6 then 6 else if m ≤ 9 then 9 else 12
    (daysFromCivil y qm (daysInMonth y qm)).toNat

/-- The pandas resample frequencies the aggregator uses: weekly (`'W'`,
weeks ending Sunday), month-end (`'M'`) and quarter-end (`'Q'`). -/
inductive Freq where
  | W
  | M
  | Q
deriving DecidableEq

/-- The label (bin right edge) of the resampling bucket containing day `d`:
the week-ending Sunday, the month end, or the quarter end. -/
def bucketEnd : Freq → Nat → Nat
  | .W, d => d + (7 - dayOfWeek d) % 7
  | .M, d => monthEnd d
  | .Q, d => quarterEnd d

/-- The row labels `df.resample(freq)` generates: one bucket per period from
the one containing the smallest index value to the one containing the
largest, in chronological order (buckets with no rows included). -/
def resampleBins (freq : Freq) (lo hi : Nat) : List Nat :=
  ((List.range (hi + 1 - lo)).map (fun i => bucketEnd freq (lo + i))).dedup

/-- Extract the `Nat` dates of a date index; `none` if some index cell is
not a datetime (pandas would refuse to resample such an index). -/
def indexDates (rows : List (Cell × Row)) : Option (List (Nat × Row)) :=
  rows.mapM (fun p => (cellDate? p.1).map (fun d => (d, p.2)))

/-- The rows of one bucket: the indexed rows whose date falls in the bucket
labelled `e`, in index order. -/
def bucketRows (freq : Freq) (e : Nat) (irows : List (Nat × Row)) :
    List (Nat × Row) :=
  irows.filter (fun p => bucketEnd freq p.1 = e)

/-- Errors `aggregate_trade_data` can raise: `ValueError` (the repository's
`InvalidArgument`s) or a pandas `TypeError` for a non-datetime index. -/
inductive AggError where
  | valueError (msg : String)
  | typeError
deriving DecidableEq

/-- The `ValueError` message for an unsupported period (lines 158–160). -/
def unsupportedPeriodMsg : String :=
  "Unsupported period. Choose from \x271M\x27, \x276M\x27, \x271Y\x27, \x272Y\x27, \x273Y\x27, \x275Y\x27."

/-- The `ValueError` message for a missing date column (line 164). -/
def missingDateMsg : String :=
  "DataFrame must contain a \x27date\x27 column for resampling"

/-- `df.resample(freq).agg(agg_map)` followed by `reset_index()`: one output
row per bucket, the bucket label as the leading `date` column, every other
column combined with its `agg_map` rule over the bucket's cells. -/
def resample_agg (freq : Freq) (f : IndexedFrame) : Except AggError DataFrame :=
  match indexDates f.rows with
  | none => .error .typeError
  | some irows =>
    match irows.map Prod.fst with
    | [] => .ok ⟨"date" :: f.cols, []⟩
    | d0 :: ds =>
      let lo := ds.foldl min d0
      let hi := ds.foldl max d0
      .ok ⟨"date" :: f.cols,
        (resampleBins freq lo hi).map (fun e =>
          ("date", Cell.date e) ::
            f.cols.map (fun c =>
              (c, applyAgg (aggRuleOf f.cols c)
                    ((bucketRows freq e irows).map (fun p => rowCell p.2 c)))))⟩

/-- The `period` → frequency dispatch of lines 151–160 (after the `1M`
branch): `6M` → weekly, `1Y`/`2Y` → month end, `3Y`/`5Y` → quarter end,
anything else unsupported. -/
def freqOfPeriod? (period : String) : Option Freq :=
  if period = "6M" then some .W
  else if period = "1Y" ∨ period = "2Y" then some .M
  else if period = "3Y" ∨ period = "5Y" then some .Q
  else none

/-- `aggregate_trade_data(df, period)`, additionally returning the frame the
caller's variable refers to after the call.  The function body mirrors the
source line by line: upper-case the period; on `1M` return
`df.copy().reset_index(drop=True)`; otherwise resolve the frequency or raise
`ValueError`; rebind the local name to `df.copy()` — from here on the local
frame no longer aliases the caller's object, so the later in-place column
assignment `df[cum_cols] = df[cum_cols].ffill()` (the only mutating
operation in the body; `set_index`, `resample`, `agg` and `reset_index` all
return fresh objects) lands on the copy; check for the `date` column or
raise `ValueError`; set the index, forward-fill the `cumulative` columns,
resample and reset the index. -/
def aggregate_trade_data_tracked (dfArg : DataFrame) (period0 : String) :
    Except AggError DataFrame × DataFrame :=
  let period := strUpper period0
  if period = "1M" then
    (.ok (DataFrame.reset_index_drop (DataFrame.copy dfArg)), dfArg)
  else
    match freqOfPeriod? period with
    | none => (.error (.valueError unsupportedPeriodMsg), dfArg)
    | some freq =>
      let df := DataFrame.copy dfArg
      if "date" ∈ df.cols then
        let idf := set_index df "date"
        let cumCols := idf.cols.filter (fun c => containsSubstring c "cumulative")
        let idf2 : IndexedFrame := ⟨idf.cols, ffillCols cumCols idf.rows⟩
        (resample_agg freq idf2, dfArg)
      else
        (.error (.valueError missingDateMsg), dfArg)

/-- `aggregate_trade_data(df, period)`: the value returned (or error raised). -/
def aggregate_trade_data (df : DataFrame) (period : String) :
    Except AggError DataFrame :=
  (aggregate_trade_data_tracked df period).1

/-- The frame the caller's variable holds after `aggregate_trade_data`
returns or raises. -/
def aggregate_trade_data_caller (df : DataFrame) (period : String) : DataFrame :=
  (aggregate_trade_data_tracked df period).2

/-! ### Auxiliary definitions used to state and settle the claims -/

/-- The record-bucketing rule named by the specification: scan the column
name against the ordered predicates cumulative-contains, `total_`-prefix,
price-contains (case-insensitively), default — first match wins.  Stated
from the specification's words, for comparison with `aggRuleOf`. -/
def claimAggRule (col : String) : AggRule :=
  if containsSubstring col "cumulative" then .last
  else if strStartsWith col "total_" then .sum
  else if containsSubstring (strLower col) "price" then .mean
  else .mean

/-- One page of a synthetic paginated source holding `records`, served in
pages of size `P` (1-based page index), reporting the accurate total count
on every page. -/
def syntheticPage (listKey : String) (records : List Json) (P p : Nat) : Json :=
  .obj [("TotalCount", .num records.length),
        (listKey, .list ((records.drop ((p - 1) * P)).take P))]

/-- A synthetic remote endpoint for the above source: reads `PageIndex`
from the request parameters and wraps the page in the usual
`{"Data": {...}}` envelope. -/
def syntheticServer (listKey : String) (records : List Json) (P : Nat)
    (params : List (String × ParamVal)) : Json :=
  let p := match params.lookup "PageIndex" with
    | some (.n p) => p
    | _ => 0
  .obj [("Data", syntheticPage listKey records P p)]

/-- A remote endpoint whose every page reports `TotalCount = 5` but carries
an empty record list — e.g. a service whose reported total overstates the
records it will actually serve. -/
def emptyPageServer : List (String × ParamVal) → Json := fun _ =>
  .obj [("Data", .obj [("TotalCount", .num 5), ("Data", .list [])])]

/-- A remote endpoint whose page body holds the record list at neither the
shallow nor the nested key path. -/
def missingListServer : List (String × ParamVal) → Json := fun _ =>
  .obj [("Data", .obj [("TotalCount", .num 0)])]

/-- The cells of column `c`, top to bottom. -/
def colCells (df : DataFrame) (c : String) : List Cell :=
  df.rows.map (fun r => rowCell r c)

/-- The grand total of column `c` (missing cells skipped, as pandas
`sum` does). -/
def colSum (df : DataFrame) (c : String) : ℚ :=
  ((colCells df c).filterMap cellNum?).sum

/-- The date a row carries in its `date` column (`0` when absent — only
used on rows known to carry one). -/
def dateOf (r : Row) : Nat := (cellDate? (rowCell r "date")).getD 0

/-- The input rows of `df` falling in the resampling bucket labelled `e`. -/
def inputBucket (df : DataFrame) (freq : Freq) (e : Nat) : List Row :=
  df.rows.filter (fun r => bucketEnd freq (dateOf r) == e)

/-- The output row labelled with bucket end `e`, if any. -/
def outRowAt (out : DataFrame) (e : Nat) : Option Row :=
  out.rows.find? (fun r => rowCell r "date" == Cell.date e)

/-- Did the aggregator succeed? -/
def aggIsOk : Except AggError DataFrame → Bool
  | .ok _ => true
  | .error _ => false

/-- The grand total of column `c` of an aggregator result (`none` when the
call failed). -/
def resultColSum (res : Except AggError DataFrame) (c : String) : Option ℚ :=
  match res with
  | .ok out => some (colSum out c)
  | .error _ => none

/-- The cell of column `c` in the output row labelled `e` of an aggregator
result (`none` when the call failed or no such row exists). -/
def resultCellAt (res : Except AggError DataFrame) (e : Nat) (c : String) :
    Option Cell :=
  match res with
  | .ok out => (outRowAt out e).map (fun r => rowCell r c)
  | .error _ => none

/-- Does the cell hold a number? -/
def isNumCell (c : Cell) : Bool := (cellNum? c).isSome

/-- Does the cell hold a date? -/
def isDateCell (c : Cell) : Bool := (cellDate? c).isSome

/-- The arithmetic mean of a list of rationals. -/
def arithMean (qs : List ℚ) : ℚ := qs.sum / qs.length

/-- A 4-record data set for exercising the synthetic paginated source. -/
def fourRecords : List Json :=
  [.obj [("Ngay", .str "05/12/2025"), ("KLGDRong", .num 3161300)],
   .obj [("Ngay", .str "02/12/2025"), ("KLGDRong", .num 337200)],
   .obj [("Ngay", .str "01/12/2025"), ("KLGDRong", .num 125000)],
   .obj [("Ngay", .str "28/11/2025"), ("KLGDRong", .num 99000)]]

/-- A daily table whose `total_`-prefixed column also contains
`"cumulative"` — both rows fall in the week ending Sunday 1970-01-04
(day 3). -/
def dfTotalCum : DataFrame :=
  ⟨["date", "total_cumulative"],
   [[("date", .date 0), ("total_cumulative", .num 1)],
    [("date", .date 1), ("total_cumulative", .num 2)]]⟩

/-- A daily table whose price-named column also contains `"cumulative"` —
both rows fall in the week ending day 3. -/
def dfCumPrice : DataFrame :=
  ⟨["date", "cumulative_price"],
   [[("date", .date 0), ("cumulative_price", .num 1)],
    [("date", .date 1), ("cumulative_price", .num 3)]]⟩

/-- A well-behaved daily table: days 0, 1 (week ending day 3) and day 8
(week ending day 10), one `total_` column, one price column, one
cumulative column, one default column. -/
def dfDaily : DataFrame :=
  ⟨["date", "total_volume", "price", "cumulative_x", "other"],
   [[("date", .date 0), ("total_volume", .num 10), ("price", .num 2),
     ("cumulative_x", .num 1), ("other", .num 5)],
    [("date", .date 1), ("total_volume", .num 20), ("price", .num 4),
     ("cumulative_x", .num 3), ("other", .num 7)],
    [("date", .date 8), ("total_volume", .num 30), ("price", .num 6),
     ("cumulative_x", .num 6), ("other", .num 9)]]⟩

/-- A one-column table with no date column. -/
def dfNoDate : DataFrame := ⟨["x"], [[("x", .num 1)]]⟩

/-- A small table for exercising the `1M` pass-through. -/
def dfSmall : DataFrame :=
  ⟨["date", "total_v"],
   [[("date", .date 5), ("total_v", .num 3)],
    [("date", .date 6), ("total_v", .num 4)]]⟩


/-- The numeric value of a cell, `0` for non-numeric (only applied to cells
known to be numeric). -/
def qOf (c : Cell) : ℚ := (cellNum? c).getD 0

/-- The data columns the aggregator works on: the input columns with the
`date` column moved to the index. -/
def cleanCols (df : DataFrame) : List String := df.cols.erase "date"

/-- The date-indexed rows the aggregator resamples. -/
def cleanRows (df : DataFrame) : List (Nat × Row) :=
  df.rows.map (fun r => (dateOf r, dropCol r "date"))

/-- The bucket labels the resampler emits for `df`. -/
def binsOf (df : DataFrame) (freq : Freq) : List Nat :=
  match df.rows.map dateOf with
  | [] => []
  | d0 :: ds => resampleBins freq (ds.foldl min d0) (ds.foldl max d0)

/-- The explicit form of the aggregator's output on a well-formed daily
table: one row per bucket, the bucket label in the leading `date` column,
every data column combined with its `agg_map` rule over the bucket. -/
def resampledOut (df : DataFrame) (freq : Freq) : DataFrame :=
  ⟨"date" :: cleanCols df,
   (binsOf df freq).map (fun e =>
     ("date", Cell.date e) ::
       (cleanCols df).map (fun c =>
         (c, applyAgg (aggRuleOf (cleanCols df) c)
               ((bucketRows freq e (cleanRows df)).map
                 (fun p => rowCell p.2 c)))))⟩

/-! ### Claims about the paginated collector -/

lemma fetchLoop_empty_pages_runs_forever (respond : Nat → Json)
    (hresp : ∀ p, respond p
      = .obj [("Data", .obj [("TotalCount", .num 5), ("Data", .list [])])]) :
    ∀ (fuel pageIndex reqs : Nat) (tc : Json),
      (tc = Json.null ∨ tc = .num 5) →
      fetchLoop respond "Data" fuel pageIndex [] tc reqs = .ok none := by
  intro fuel
  induction fuel with
  | zero => intro pageIndex reqs tc htc; rfl
  | succ n ih =>
    intro pageIndex reqs tc htc
    rcases htc with h | h <;> subst h <;>
      simp [fetchLoop, hresp, pyGet, pyIn, pyExtend, pyGeLen, extractRecords,
        lookupKV, Json.isNull] <;>
      exact ih (pageIndex + 1) (reqs + 1) (.num 5) (Or.inr rfl)

/-- C1.  The claim says the collector stops as soon as a requested page
returns zero records, even when a previously captured total-count is larger,
the empty-page check being evaluated before the total-count check.  The code
has no empty-page check at all: its only exit is `len(rows) >= total_count`
(line 122).  Against a source whose every page reports `TotalCount = 5` but
carries an empty record list, the collector is still running after 100 page
requests — it never stops. -/
theorem fetch_json_rows_empty_page_total_overcount_never_stops :
    fetch_json_rows emptyPageServer "HPG" "Data" "" "" 2000 100 = .ok none := by
  have h1 : ∀ p : Nat, emptyPageServer (buildParams "HPG" "" "" p 2000)
      = .obj [("Data", .obj [("TotalCount", .num 5), ("Data", .list [])])] :=
    fun _ => rfl
  exact fetchLoop_empty_pages_runs_forever _ h1 100 1 0 .null (Or.inl rfl)

lemma fetchLoop_synthetic_step (listKey : String) (records : List Json) (P : Nat)
    (respond : Nat → Json)
    (hresp : ∀ p, respond p = .obj [("Data", syntheticPage listKey records P p)])
    (hkey : listKey ≠ "TotalCount")
    (n k reqs : Nat) (rows : List Json) (tc : Json)
    (htc : tc = Json.null ∨ tc = .num records.length) :
    fetchLoop respond listKey (n + 1) (k + 1) rows tc reqs =
      (if records.length ≤ (rows ++ (records.drop (k * P)).take P).length then
        .ok (some (rows ++ (records.drop (k * P)).take P, reqs + 1))
      else
        fetchLoop respond listKey n (k + 2) (rows ++ (records.drop (k * P)).take P)
          (.num records.length) (reqs + 1)) := by
  have hkey' : ¬("TotalCount" = listKey) := fun h => hkey h.symm
  have hstep : k + 1 - 1 = k := by omega
  by_cases hle : records.length ≤ (rows ++ (records.drop (k * P)).take P).length
  · have hd : (decide (((rows ++ (records.drop (k * P)).take P).length : Int)
        ≥ (records.length : Int))) = true := decide_eq_true (by exact_mod_cast hle)
    rcases htc with h | h <;> subst h <;>
      simp only [fetchLoop, hresp, pyGet, pyIn, pyExtend, pyGeLen,
        extractRecords, lookupKV, Json.isNull, syntheticPage, hstep,
        if_true, if_false, reduceIte, hkey', Option.isSome_some,
        Option.getD_some, hd, if_pos hle] <;> simp [hd] <;>
      (intro hcon; exfalso;
       simp only [List.length_append, List.length_take, List.length_drop] at hle;
       omega)
  · have hd : (decide (((rows ++ (records.drop (k * P)).take P).length : Int)
        ≥ (records.length : Int))) = false := decide_eq_false (by
          intro hcon
          exact hle (by exact_mod_cast hcon))
    rcases htc with h | h <;> subst h <;>
      simp only [fetchLoop, hresp, pyGet, pyIn, pyExtend, pyGeLen,
        extractRecords, lookupKV, Json.isNull, syntheticPage, hstep,
        if_true, if_false, reduceIte, hkey', Option.isSome_some,
        Option.getD_some, hd, if_neg hle] <;> simp [hd] <;>
      (intro hcon; exfalso;
       simp only [List.length_append, List.length_take, List.length_drop] at hle;
       omega)

lemma fetchLoop_synthetic_invariant (listKey : String) (records : List Json)
    (P : Nat) (respond : Nat → Json)
    (hresp : ∀ p, respond p = .obj [("Data", syntheticPage listKey records P p)])
    (hP : 0 < P) (hkey : listKey ≠ "TotalCount") :
    ∀ (fuel k : Nat) (tc : Json), (tc = Json.null ∨ tc = .num records.length) →
      k < max 1 ((records.length + P - 1) / P) →
      max 1 ((records.length + P - 1) / P) - k ≤ fuel →
      fetchLoop respond listKey fuel (k + 1) (records.take (k * P)) tc k
        = .ok (some (records, max 1 ((records.length + P - 1) / P))) := by
  intro fuel
  induction fuel with
  | zero => intro k tc htc hk hfuel; omega
  | succ n ih =>
    intro k tc htc hk hfuel
    rw [fetchLoop_synthetic_step listKey records P respond hresp hkey n k k
      (records.take (k * P)) tc htc, ← List.take_add]
    by_cases hstop : records.length ≤ k * P + P
    · rw [if_pos (by simp [List.length_take]; omega)]
      rw [List.take_of_length_le hstop]
      rcases Nat.eq_zero_or_pos records.length with hz | hpos
      · have hp1 : max 1 ((records.length + P - 1) / P) = 1 := by
          rw [hz]
          have : (0 + P - 1) / P = 0 := Nat.div_eq_of_lt (by omega)
          rw [this]
          simp
        rw [hp1] at hk ⊢
        have : k = 0 := by omega
        subst this
        rfl
      · have hd1 : 1 ≤ (records.length + P - 1) / P :=
          (Nat.le_div_iff_mul_le hP).mpr (by omega)
        have hpages : max 1 ((records.length + P - 1) / P)
            = (records.length + P - 1) / P := Nat.max_eq_right hd1
        rw [hpages] at hk ⊢
        have hkP : (k + 1) * P ≤ records.length + P - 1 :=
          (Nat.le_div_iff_mul_le hP).mp hk
        have e1 : (k + 1) * P = k * P + P := by ring
        have e2 : (k + 1 + 1) * P = k * P + P + P := by ring
        have : (records.length + P - 1) / P = k + 1 :=
          Nat.div_eq_of_lt_le (by omega) (by omega)
        rw [this]
    · rw [if_neg (by simp [List.length_take]; omega)]
      have hd1 : 1 ≤ (records.length + P - 1) / P :=
        (Nat.le_div_iff_mul_le hP).mpr (by omega)
      have hpages : max 1 ((records.length + P - 1) / P)
          = (records.length + P - 1) / P := Nat.max_eq_right hd1
      have hmul : (k + 1 + 1) * P ≤ records.length + P - 1 := by
        have e2 : (k + 1 + 1) * P = k * P + P + P := by ring
        omega
      have hk2 : k + 1 < max 1 ((records.length + P - 1) / P) := by
        rw [hpages]
        have h2 : k + 1 + 1 ≤ (records.length + P - 1) / P :=
          (Nat.le_div_iff_mul_le hP).mpr hmul
        omega
      have e1 : (k + 1) * P = k * P + P := by ring
      have := ih (k + 1) (.num records.length) (Or.inr rfl) hk2 (by omega)
      rw [e1] at this
      exact this

/-- C2 (amended).  Against a synthetic paginated source holding `records`
served in pages of size `P` with an accurate total-count on every page, the
collector returns exactly the records in the order served (concatenation in
page order), issuing exactly `max 1 ⌈N/P⌉` page requests — the `max 1`
because even an empty source (`N = 0`) costs one request before the
total-count check can fire. -/
theorem fetch_json_rows_synthetic_complete
    (listKey symbol start_date end_date : String) (records : List Json)
    (P fuel : Nat) (hP : 0 < P) (hkey : listKey ≠ "TotalCount")
    (hfuel : max 1 ((records.length + P - 1) / P) ≤ fuel) :
    fetch_json_rows (syntheticServer listKey records P) symbol listKey
      start_date end_date P fuel
      = .ok (some (records, max 1 ((records.length + P - 1) / P))) := by
  have hresp : ∀ p,
      syntheticServer listKey records P (buildParams symbol start_date end_date p P)
        = .obj [("Data", syntheticPage listKey records P p)] := fun _ => rfl
  have h := fetchLoop_synthetic_invariant listKey records P _ hresp hP hkey
    fuel 0 .null (Or.inl rfl) (by omega) (by omega)
  simpa using h

/-- C2 witness: four records served three per page are returned complete and
in order after exactly two page requests (`⌈4/3⌉ = 2`). -/
theorem fetch_json_rows_synthetic_complete_witness :
    fetch_json_rows (syntheticServer "Data" fourRecords 3) "HPG" "Data"
      "" "" 3 5 = .ok (some (fourRecords, 2)) := by
  have h := fetch_json_rows_synthetic_complete "Data" "HPG" "" "" fourRecords
    3 5 (by omega) (by decide) (by decide)
  have h2 : max 1 ((fourRecords.length + 3 - 1) / 3) = 2 := by decide
  rw [h2] at h
  exact h

/-- C2 counterexample.  The claim says the collector issues exactly
`⌈N/P⌉` page requests for a source of `N` records.  For the empty source
(`N = 0`, accurate total-count `0`) the code still issues one page request
(`⌈0/P⌉ = 0 ≠ 1`): the loop body always runs at least once before the
total-count check. -/
theorem fetch_json_rows_zero_records_one_request :
    fetch_json_rows (syntheticServer "Data" [] 2000) "HPG" "Data" "" "" 2000 10
        = .ok (some ([], 1))
      ∧ (List.length ([] : List Json) + 2000 - 1) / 2000 = 0 :=
  ⟨rfl, rfl⟩

/-- C3 (amended).  When the parsed page body's top-level data section holds
the record list at neither the shallow key path nor the nested `"Data"` key
path, `_fetch_json_rows` raises no error: both `dict.get` calls default, so
the page contributes an empty record list and the loop proceeds. -/
theorem extractRecords_missing_list_defaults_empty
    (kvs kvs2 : List (String × Json)) (listKey : String)
    (h1 : lookupKV kvs listKey = none)
    (h2 : (lookupKV kvs "Data").getD (.obj []) = .obj kvs2)
    (h3 : lookupKV kvs2 listKey = none) :
    extractRecords (.obj kvs) listKey = .ok (.list []) := by
  simp [extractRecords, pyIn, pyGet, h1, h2, h3]

/-- C3 witness: a data section carrying only `TotalCount`, with the record
list at neither path, yields the empty record list and no error. -/
theorem extractRecords_missing_list_defaults_empty_witness :
    extractRecords (.obj [("TotalCount", .num 0)]) "ListDataTudoanh"
      = .ok (.list []) :=
  extractRecords_missing_list_defaults_empty [("TotalCount", .num 0)] []
    "ListDataTudoanh" rfl rfl rfl

/-- C3 counterexample.  The claim says the collector fails with a
`ParseError` when the record list is at neither key path.  Against a source
whose pages hold only `TotalCount`, the collector completes normally with an
empty record set after one request — it raises nothing. -/
theorem fetch_json_rows_missing_list_no_error :
    fetch_json_rows missingListServer "HPG" "X" "" "" 2000 10
      = .ok (some ([], 1)) :=
  rfl

/-- C4 (amended).  When a start or end date bound is not supplied (the
empty-string defaults of `_fetch_json_rows`), the corresponding request
parameter is still included in every page request, carrying the empty
string as its value — it is not omitted. -/
theorem buildParams_unsupplied_bounds_sent_as_empty
    (symbol : String) (pageIndex pageSize : Nat) :
    (buildParams symbol "" "" pageIndex pageSize).map Prod.fst
        = ["Symbol", "StartDate", "EndDate", "PageIndex", "PageSize"]
      ∧ ("StartDate", ParamVal.s "") ∈ buildParams symbol "" "" pageIndex pageSize
      ∧ ("EndDate", ParamVal.s "") ∈ buildParams symbol "" "" pageIndex pageSize := by
  refine ⟨rfl, ?_, ?_⟩ <;> simp [buildParams]

/-- C4 counterexample.  The claim says an unsupplied bound's parameter is
omitted from the page request entirely; in fact the `params` dict of every
page request contains `StartDate` and `EndDate` bound to the empty string. -/
theorem buildParams_empty_bounds_present :
    ("StartDate", ParamVal.s "") ∈ buildParams "HPG" "" "" 1 2000
      ∧ ("EndDate", ParamVal.s "") ∈ buildParams "HPG" "" "" 1 2000 := by
  constructor <;> simp [buildParams]

/-! ### Claims about the horizon aggregator -/

/-- C5.  For every column of every input table (and hence under every
aggregating horizon), the `agg_map` rule the aggregator builds —
`aggRuleOf`, membership in the `cum_cols` filter first, then the `total_`
prefix, then the case-insensitive `price` test, then the default — equals
the specification's ordered-predicate scan `claimAggRule`, preserving the
stated precedence exactly. -/
theorem aggRule_matches_spec_precedence (cols : List String) (col : String)
    (h : col ∈ cols) : aggRuleOf cols col = claimAggRule col := by
  unfold aggRuleOf claimAggRule
  by_cases hc : containsSubstring col "cumulative"
  · have hmem : col ∈ cols.filter (fun c => containsSubstring c "cumulative") :=
      List.mem_filter.mpr ⟨h, hc⟩
    simp [hmem, hc]
  · have hmem : col ∉ cols.filter (fun c => containsSubstring c "cumulative") :=
      fun hmem => hc (List.mem_filter.mp hmem).2
    simp [hmem, hc]

/-- C5 witness: a column whose name matches both the cumulative and the
`total_`-prefix predicates takes the cumulative rule (`last`), the first
predicate in precedence order. -/
theorem aggRule_matches_spec_precedence_witness :
    aggRuleOf ["cumulative_total_nva"] "cumulative_total_nva"
      = claimAggRule "cumulative_total_nva" :=
  aggRule_matches_spec_precedence ["cumulative_total_nva"]
    "cumulative_total_nva" (by simp)

/-- C6.  With horizon `1M` in any letter case, `aggregate_trade_data`
returns a structural copy of its input — same rows, same order, same
columns, same values — with no column transformation applied. -/
theorem aggregate_1M_passthrough (df : DataFrame) (period : String)
    (h : strUpper period = "1M") : aggregate_trade_data df period = .ok df := by
  simp [aggregate_trade_data, aggregate_trade_data_tracked, h,
    DataFrame.copy, DataFrame.reset_index_drop]

/-- C6 witness: `"1m"` (lower case) passes a concrete two-row table
through unchanged. -/
theorem aggregate_1M_passthrough_witness :
    aggregate_trade_data dfSmall "1m" = .ok dfSmall :=
  aggregate_1M_passthrough dfSmall "1m" (by decide)

/-- C8.  For every horizon label outside {1M, 6M, 1Y, 2Y, 3Y, 5Y}
(case-insensitively), `aggregate_trade_data` fails with the unsupported-period
`ValueError` and produces no partial output — the caller's table is
unchanged. -/
theorem aggregate_invalid_period (df : DataFrame) (period : String)
    (h : strUpper period ∉ (["1M", "6M", "1Y", "2Y", "3Y", "5Y"] : List String)) :
    aggregate_trade_data df period = .error (.valueError unsupportedPeriodMsg)
      ∧ aggregate_trade_data_caller df period = df := by
  simp only [List.mem_cons, List.not_mem_nil, or_false, not_or] at h
  obtain ⟨h1, h2, h3, h4, h5, h6⟩ := h
  have hfreq : freqOfPeriod? (strUpper period) = none := by
    simp [freqOfPeriod?, h2, h3, h4, h5, h6]
  constructor <;>
    simp [aggregate_trade_data, aggregate_trade_data_caller,
      aggregate_trade_data_tracked, h1, hfreq]

/-- C8 witness: the label `"10Y"` is rejected with the unsupported-period
error and the input is left unchanged. -/
theorem aggregate_invalid_period_witness :
    aggregate_trade_data dfSmall "10Y" = .error (.valueError unsupportedPeriodMsg)
      ∧ aggregate_trade_data_caller dfSmall "10Y" = dfSmall :=
  aggregate_invalid_period dfSmall "10Y" (by decide)

/-- C9 (amended).  For every input table lacking a `date` column and every
aggregating horizon (6M, 1Y, 2Y, 3Y, 5Y), `aggregate_trade_data` fails with
the missing-date `ValueError` before any resampling, leaving the input
unchanged; the `1M` pass-through, by contrast, never consults the date
column. -/
theorem aggregate_missing_date (df : DataFrame) (period : String) (freq : Freq)
    (hfreq : freqOfPeriod? (strUpper period) = some freq)
    (hdate : "date" ∉ df.cols) :
    aggregate_trade_data df period = .error (.valueError missingDateMsg)
      ∧ aggregate_trade_data_caller df period = df := by
  have h1M : ¬(strUpper period = "1M") := by
    intro h
    rw [h] at hfreq
    exact Option.noConfusion hfreq
  constructor <;>
    simp [aggregate_trade_data, aggregate_trade_data_caller,
      aggregate_trade_data_tracked, h1M, hfreq, DataFrame.copy, hdate]

/-- C9 witness: a date-less table under horizon `"6m"` is rejected with the
missing-date error, input unchanged. -/
theorem aggregate_missing_date_witness :
    aggregate_trade_data dfNoDate "6m" = .error (.valueError missingDateMsg)
      ∧ aggregate_trade_data_caller dfNoDate "6m" = dfNoDate :=
  aggregate_missing_date dfNoDate "6m" .W rfl (by decide)

/-- C9 counterexample.  The claim quantifies over every supported horizon,
but `1M` is supported and bypasses the date check: a table with no `date`
column is returned successfully (a structural copy), not rejected with
`InvalidArgument`. -/
theorem aggregate_1M_no_date_check :
    aggregate_trade_data dfNoDate "1M" = .ok dfNoDate
      ∧ "date" ∉ dfNoDate.cols :=
  ⟨rfl, by decide⟩

/-- C10.  `aggregate_trade_data` never mutates the table it is given: the
local name is rebound to `df.copy()` before the only in-place operation
(the forward-fill column assignment), so for every input and every horizon
— including the failing ones — the caller's frame after the call is the
frame passed in. -/
theorem aggregate_never_mutates_caller (df : DataFrame) (period : String) :
    aggregate_trade_data_caller df period = df := by
  unfold aggregate_trade_data_caller aggregate_trade_data_tracked
  by_cases h : strUpper period = "1M"
  · simp [h]
  · cases hfreq : freqOfPeriod? (strUpper period) with
    | none => simp [h, hfreq]
    | some freq =>
      by_cases hd : "date" ∈ (DataFrame.copy df).cols
      · simp [h, hfreq, hd]
      · simp [h, hfreq, hd]

lemma rowCell_cons (k : String) (v : Cell) (rest : Row) (c : String) :
    rowCell ((k, v) :: rest) c = if k = c then v else rowCell rest c := rfl

lemma dropCol_cons (k : String) (v : Cell) (rest : Row) (key : String) :
    dropCol ((k, v) :: rest) key
      = if k = key then rest else (k, v) :: dropCol rest key := rfl

lemma rowCell_dropCol (key c : String) (h : c ≠ key) (r : Row) :
    rowCell (dropCol r key) c = rowCell r c := by
  induction r with
  | nil => rfl
  | cons p rest ih =>
    obtain ⟨k, v⟩ := p
    rw [dropCol_cons]
    by_cases hk : k = key
    · rw [if_pos hk, rowCell_cons, if_neg (fun hc : k = c => h (hc ▸ hk ▸ rfl))]
    · rw [if_neg hk, rowCell_cons, rowCell_cons, ih]

lemma ffillColGo_id (c : String) :
    ∀ (rs : List (Cell × Row)) (carry : Option Cell),
      (∀ p ∈ rs, rowCell p.2 c ≠ .na) → ffillColGo c carry rs = rs := by
  intro rs
  induction rs with
  | nil => intro carry _; rfl
  | cons p rest ih =>
    intro carry h
    obtain ⟨d, r⟩ := p
    have hv := h (d, r) (List.mem_cons_self _ _)
    cases hcell : rowCell r c with
    | na => exact absurd hcell hv
    | num q =>
      simp only [ffillColGo, hcell]
      rw [ih (some (.num q)) (fun p hp => h p (List.mem_cons_of_mem _ hp))]
    | date dd =>
      simp only [ffillColGo, hcell]
      rw [ih (some (.date dd)) (fun p hp => h p (List.mem_cons_of_mem _ hp))]

lemma ffillCols_id :
    ∀ (cs : List String) (rs : List (Cell × Row)),
      (∀ c ∈ cs, ∀ p ∈ rs, rowCell p.2 c ≠ .na) → ffillCols cs rs = rs := by
  intro cs
  induction cs with
  | nil => intro rs _; rfl
  | cons c cs ih =>
    intro rs h
    show List.foldl (fun rs c => ffillColGo c none rs) (ffillColGo c none rs) cs = rs
    rw [ffillColGo_id c rs none (h c (List.mem_cons_self _ _))]
    exact ih rs (fun c' hc' => h c' (List.mem_cons_of_mem _ hc'))

lemma indexDates_map (rows : List Row)
    (h : ∀ r ∈ rows, isDateCell (rowCell r "date") = true) :
    indexDates (rows.map (fun r => (rowCell r "date", dropCol r "date")))
      = some (rows.map (fun r => (dateOf r, dropCol r "date"))) := by
  induction rows with
  | nil => rfl
  | cons r rest ih =>
    have hd := h r (List.mem_cons_self _ _)
    obtain ⟨d, hd'⟩ : ∃ d, rowCell r "date" = .date d := by
      cases hc : rowCell r "date" <;> rw [hc] at hd <;>
        simp [isDateCell, cellDate?] at hd
      exact ⟨_, rfl⟩
    have ihr := ih (fun r' hr' => h r' (List.mem_cons_of_mem _ hr'))
    simp only [indexDates, List.map_cons, List.mapM_cons] at ihr ⊢
    rw [hd']
    have hcd : cellDate? (Cell.date d) = some d := rfl
    rw [hcd]
    simp only [ihr, Option.map_some, Option.some_bind, Option.bind_some]
    simp [dateOf, hd', cellDate?]

lemma foldl_min_le_init : ∀ (l : List Nat) (a : Nat), l.foldl min a ≤ a := by
  intro l
  induction l with
  | nil => intro a; exact Nat.le_refl a
  | cons b l ih =>
    intro a
    calc (b :: l).foldl min a = l.foldl min (min a b) := rfl
    _ ≤ min a b := ih (min a b)
    _ ≤ a := Nat.min_le_left a b

lemma foldl_min_le : ∀ (l : List Nat) (a x : Nat), (x = a ∨ x ∈ l) →
    l.foldl min a ≤ x := by
  intro l
  induction l with
  | nil =>
    intro a x hx
    rcases hx with h | h
    · subst h; exact Nat.le_refl _
    · cases h
  | cons b l ih =>
    intro a x hx
    rcases hx with h | h
    · subst h; exact foldl_min_le_init (b :: l) x
    · rcases List.mem_cons.mp h with h | h
      · subst h
        calc (x :: l).foldl min a = l.foldl min (min a x) := rfl
        _ ≤ min a x := foldl_min_le_init l (min a x)
        _ ≤ x := Nat.min_le_right a x
      · exact ih (min a b) x (Or.inr h)

lemma le_foldl_max_init : ∀ (l : List Nat) (a : Nat), a ≤ l.foldl max a := by
  intro l
  induction l with
  | nil => intro a; exact Nat.le_refl a
  | cons b l ih =>
    intro a
    calc a ≤ max a b := Nat.le_max_left a b
    _ ≤ l.foldl max (max a b) := ih (max a b)
    _ = (b :: l).foldl max a := rfl

lemma le_foldl_max : ∀ (l : List Nat) (a x : Nat), (x = a ∨ x ∈ l) →
    x ≤ l.foldl max a := by
  intro l
  induction l with
  | nil =>
    intro a x hx
    rcases hx with h | h
    · subst h; exact Nat.le_refl _
    · cases h
  | cons b l ih =>
    intro a x hx
    rcases hx with h | h
    · subst h; exact le_foldl_max_init (b :: l) x
    · rcases List.mem_cons.mp h with h | h
      · subst h
        calc x ≤ max a x := Nat.le_max_right a x
        _ ≤ l.foldl max (max a x) := le_foldl_max_init l (max a x)
        _ = (x :: l).foldl max a := rfl
      · exact ih (max a b) x (Or.inr h)

lemma bucketEnd_mem_resampleBins (freq : Freq) (lo hi d : Nat)
    (h1 : lo ≤ d) (h2 : d ≤ hi) :
    bucketEnd freq d ∈ resampleBins freq lo hi := by
  unfold resampleBins
  rw [List.mem_dedup]
  apply List.mem_map.mpr
  refine ⟨d - lo, List.mem_range.mpr (by omega), ?_⟩
  congr 1
  omega

lemma list_sum_map_add {α : Type} (l : List α) (g h : α → ℚ) :
    (l.map (fun x => g x + h x)).sum = (l.map g).sum + (l.map h).sum := by
  induction l with
  | nil => simp
  | cons a l ih => simp [ih]; ring

lemma sum_ite_of_mem (es : List Nat) (k : Nat) (v : ℚ)
    (hnd : es.Nodup) (hk : k ∈ es) :
    (es.map (fun e => if k = e then v else 0)).sum = v := by
  induction es with
  | nil => cases hk
  | cons a es ih =>
    rcases List.mem_cons.mp hk with h | h
    · subst h
      rw [List.map_cons, List.sum_cons, if_pos rfl]
      have hz : ∀ x ∈ es.map (fun e => if k = e then v else 0), x = 0 := by
        intro x hx
        obtain ⟨e, he, hex⟩ := List.mem_map.mp hx
        rw [← hex, if_neg (fun hke => (List.nodup_cons.mp hnd).1 (by rw [hke]; exact he))]
      rw [List.sum_eq_zero hz]
      ring
    · have hka : ¬(k = a) := fun he => (List.nodup_cons.mp hnd).1 (by rw [← he]; exact h)
      rw [List.map_cons, List.sum_cons, if_neg hka,
        ih (List.nodup_cons.mp hnd).2 h]
      ring

lemma sum_filter_partition {α : Type} (key : α → Nat) (f : α → ℚ) :
    ∀ (l : List α) (es : List Nat), es.Nodup → (∀ x ∈ l, key x ∈ es) →
      (es.map (fun e => ((l.filter (fun x => key x == e)).map f).sum)).sum
        = (l.map f).sum := by
  intro l
  induction l with
  | nil => intro es _ _; simp
  | cons a l ih =>
    intro es hnd hcov
    have hrw : es.map (fun e => (((a :: l).filter (fun x => key x == e)).map f).sum)
        = es.map (fun e => (if key a = e then f a else 0)
            + ((l.filter (fun x => key x == e)).map f).sum) := by
      apply List.map_congr_left
      intro e _
      by_cases h : key a = e
      · simp [List.filter_cons, h]
      · simp [List.filter_cons, h]
    rw [hrw, list_sum_map_add,
      sum_ite_of_mem es (key a) (f a) hnd (hcov a (List.mem_cons_self _ _)),
      ih es hnd (fun x hx => hcov x (List.mem_cons_of_mem _ hx))]
    simp

lemma filterMap_cellNum_of_num {α : Type} (l : List α) (g : α → Cell)
    (h : ∀ x ∈ l, isNumCell (g x) = true) :
    (l.map g).filterMap cellNum? = l.map (fun x => qOf (g x)) := by
  induction l with
  | nil => rfl
  | cons a l ih =>
    have ha := h a (List.mem_cons_self _ _)
    obtain ⟨q, hq⟩ : ∃ q, g a = .num q := by
      cases hc : g a <;> rw [hc] at ha <;> simp [isNumCell, cellNum?] at ha
      exact ⟨_, rfl⟩
    rw [List.map_cons, List.filterMap_cons, List.map_cons, hq,
      show qOf (Cell.num q) = q from rfl,
      ih (fun x hx => h x (List.mem_cons_of_mem _ hx))]
    rfl

lemma rowCell_mapAssoc (v : String → Cell) (c : String) :
    ∀ cs : List String, c ∈ cs →
      rowCell (cs.map (fun c' => (c', v c'))) c = v c := by
  intro cs
  induction cs with
  | nil => intro h; cases h
  | cons a cs ih =>
    intro h
    rw [List.map_cons, rowCell_cons]
    rcases List.mem_cons.mp h with h | h
    · rw [if_pos h.symm, h]
    · by_cases ha : a = c
      · rw [if_pos ha, ha]
      · rw [if_neg ha]
        exact ih h

lemma rowCell_build (e : Nat) (cols : List String) (v : String → Cell)
    (c : String) (hc : c ∈ cols) (hcd : c ≠ "date") :
    rowCell (("date", Cell.date e) :: cols.map (fun c' => (c', v c'))) c
      = v c := by
  rw [rowCell_cons, if_neg (fun h => hcd h.symm)]
  exact rowCell_mapAssoc v c cols hc

lemma find_outRow (p : Nat → Row) (e : Nat) :
    ∀ ens : List Nat, e ∈ ens →
      (∀ e', rowCell (p e') "date" = .date e') →
      (ens.map p).find? (fun r => rowCell r "date" == Cell.date e) = some (p e) := by
  intro ens
  induction ens with
  | nil => intro h; cases h
  | cons a ens ih =>
    intro h hp
    rw [List.map_cons, List.find?_cons]
    by_cases ha : a = e
    · subst ha
      rw [show (rowCell (p a) "date" == Cell.date a) = true by
        rw [hp a]; exact beq_self_eq_true _]
    · rw [show (rowCell (p a) "date" == Cell.date e) = false by
        rw [hp a]; exact beq_eq_false_iff_ne.mpr (fun hc => ha (by injection hc))]
      exact ih (List.mem_cons.mp h |>.resolve_left (fun hc => ha hc.symm)) hp

lemma getLast_of_max {α : Type} (key : α → Nat) :
    ∀ l : List α, l.Pairwise (fun a b => key a < key b) →
      ∀ x ∈ l, (∀ y ∈ l, key y ≤ key x) → l.getLast? = some x := by
  intro l
  induction l with
  | nil => intro _ x hx; cases hx
  | cons a l ih =>
    intro hpw x hx hmax
    cases l with
    | nil =>
      rcases List.mem_cons.mp hx with h | h
      · subst h; rfl
      · cases h
    | cons b l' =>
      have hab : key a < key b :=
        (List.pairwise_cons.mp hpw).1 b (List.mem_cons_self _ _)
      rcases List.mem_cons.mp hx with h | h
      · exfalso
        subst h
        have := hmax b (List.mem_cons_of_mem _ (List.mem_cons_self _ _))
        omega
      · rw [List.getLast?_cons_cons]
        exact ih (List.pairwise_cons.mp hpw).2 x h
          (fun y hy => hmax y (List.mem_cons_of_mem _ hy))

lemma aggRuleOf_of_cumulative (cols : List String) (c : String)
    (hc : c ∈ cols) (h : containsSubstring c "cumulative" = true) :
    aggRuleOf cols c = .last := by
  unfold aggRuleOf
  rw [if_pos (List.mem_filter.mpr ⟨hc, h⟩)]

lemma aggRuleOf_of_total (cols : List String) (c : String)
    (h1 : containsSubstring c "cumulative" = false)
    (h2 : strStartsWith c "total_" = true) :
    aggRuleOf cols c = .sum := by
  unfold aggRuleOf
  rw [if_neg (fun hmem => by
    have := (List.mem_filter.mp hmem).2
    rw [h1] at this
    cases this), if_pos h2]

lemma aggRuleOf_of_other (cols : List String) (c : String)
    (h1 : containsSubstring c "cumulative" = false)
    (h2 : strStartsWith c "total_" = false) :
    aggRuleOf cols c = .mean := by
  unfold aggRuleOf
  rw [if_neg (fun hmem => by
    have := (List.mem_filter.mp hmem).2
    rw [h1] at this
    cases this), if_neg (by rw [h2]; exact fun hc => Bool.noConfusion hc)]
  by_cases h3 : containsSubstring (strLower c) "price" = true
  · rw [if_pos h3]
  · rw [if_neg h3]

lemma isNumCell_ne_na {c : Cell} (h : isNumCell c = true) : c ≠ .na := by
  intro hna
  rw [hna] at h
  simp [isNumCell, cellNum?] at h

lemma aggregate_eval (df : DataFrame) (period : String) (freq : Freq)
    (hfreq : freqOfPeriod? (strUpper period) = some freq)
    (hdate : "date" ∈ df.cols) (hnd : df.cols.Nodup)
    (hnum : ∀ r ∈ df.rows, ∀ c ∈ df.cols, c ≠ "date" →
      isNumCell (rowCell r c) = true)
    (hdat : ∀ r ∈ df.rows, isDateCell (rowCell r "date") = true) :
    aggregate_trade_data df period = .ok (resampledOut df freq) := by
  have h1M : ¬(strUpper period = "1M") := fun h => by
    rw [h] at hfreq; exact Option.noConfusion hfreq
  have hffill : ffillCols
      ((df.cols.erase "date").filter (fun c => containsSubstring c "cumulative"))
      (df.rows.map (fun r => (rowCell r "date", dropCol r "date")))
      = df.rows.map (fun r => (rowCell r "date", dropCol r "date")) := by
    apply ffillCols_id
    intro c hc p hp
    obtain ⟨r, hr, rfl⟩ := List.mem_map.mp hp
    have hc1 : c ∈ df.cols.erase "date" := (List.mem_filter.mp hc).1
    have hcd : c ≠ "date" := fun h => (List.Nodup.not_mem_erase hnd) (h ▸ hc1)
    have hcc : c ∈ df.cols := List.mem_of_mem_erase hc1
    have hn := hnum r hr c hcc hcd
    show rowCell (dropCol r "date") c ≠ .na
    rw [rowCell_dropCol "date" c hcd]
    exact isNumCell_ne_na hn
  have hidx := indexDates_map df.rows hdat
  simp only [aggregate_trade_data, aggregate_trade_data_tracked, if_neg h1M,
    hfreq, DataFrame.copy, if_pos hdate, set_index, hffill, resample_agg, hidx,
    List.map_map]
  have hcomp : (Prod.fst ∘ fun r => (dateOf r, dropCol r "date")) = dateOf := rfl
  rw [hcomp]
  cases hrows : df.rows with
  | nil => simp [resampledOut, cleanCols, cleanRows, binsOf, hrows]
  | cons r0 rest =>
    simp [resampledOut, cleanCols, cleanRows, binsOf, hrows]

lemma bucket_filter_map (freq : Freq) (e : Nat) (c : String)
    (hcd : c ≠ "date") :
    ∀ rows : List Row,
      ((rows.map (fun r => (dateOf r, dropCol r "date"))).filter
          (fun p => bucketEnd freq p.1 == e)).map (fun p => rowCell p.2 c)
        = (rows.filter (fun r => bucketEnd freq (dateOf r) == e)).map
            (fun r => rowCell r c) := by
  intro rows
  induction rows with
  | nil => rfl
  | cons r rest ih =>
    simp only [List.map_cons, List.filter_cons]
    by_cases h : (bucketEnd freq (dateOf r) == e) = true
    · rw [if_pos h, if_pos h]
      simp only [List.map_cons]
      rw [ih, rowCell_dropCol "date" c hcd]
    · rw [if_neg h, if_neg h]
      exact ih

lemma bucketCells_eq (df : DataFrame) (freq : Freq) (e : Nat) (c : String)
    (hcd : c ≠ "date") :
    (bucketRows freq e (cleanRows df)).map (fun p => rowCell p.2 c)
      = (inputBucket df freq e).map (fun r => rowCell r c) := by
  unfold bucketRows cleanRows inputBucket
  exact bucket_filter_map freq e c hcd df.rows

lemma resampledOut_col (df : DataFrame) (freq : Freq) (c : String)
    (hc' : c ∈ cleanCols df) (hcd : c ≠ "date") :
    colCells (resampledOut df freq) c
      = (binsOf df freq).map (fun e =>
          applyAgg (aggRuleOf (cleanCols df) c)
            ((inputBucket df freq e).map (fun r => rowCell r c))) := by
  unfold colCells resampledOut
  rw [List.map_map]
  apply List.map_congr_left
  intro e _
  show rowCell (("date", Cell.date e) :: (cleanCols df).map (fun c' =>
    (c', applyAgg (aggRuleOf (cleanCols df) c')
      ((bucketRows freq e (cleanRows df)).map (fun p => rowCell p.2 c'))))) c = _
  rw [rowCell_build e (cleanCols df) _ c hc' hcd, bucketCells_eq df freq e c hcd]

lemma mem_binsOf (df : DataFrame) (freq : Freq) :
    ∀ r ∈ df.rows, bucketEnd freq (dateOf r) ∈ binsOf df freq := by
  intro r hr
  unfold binsOf
  cases hrows : df.rows with
  | nil => rw [hrows] at hr; cases hr
  | cons r0 rest =>
    rw [hrows] at hr
    simp only [List.map_cons]
    apply bucketEnd_mem_resampleBins
    · apply foldl_min_le
      rcases List.mem_cons.mp hr with h | h
      · exact Or.inl (by rw [h])
      · exact Or.inr (List.mem_map_of_mem _ h)
    · apply le_foldl_max
      rcases List.mem_cons.mp hr with h | h
      · exact Or.inl (by rw [h])
      · exact Or.inr (List.mem_map_of_mem _ h)

lemma binsOf_nodup (df : DataFrame) (freq : Freq) : (binsOf df freq).Nodup := by
  unfold binsOf
  cases df.rows.map dateOf with
  | nil => exact List.nodup_nil
  | cons d0 ds => exact List.nodup_dedup _

lemma mem_binsOf_of_bucket_ne_nil (df : DataFrame) (freq : Freq) (e : Nat)
    (hne : inputBucket df freq e ≠ []) : e ∈ binsOf df freq := by
  obtain ⟨r, hr⟩ := List.exists_mem_of_ne_nil _ hne
  have hr' := List.mem_filter.mp hr
  have heq : bucketEnd freq (dateOf r) = e := by
    have h2 := hr'.2
    exact eq_of_beq h2
  rw [← heq]
  exact mem_binsOf df freq r hr'.1

lemma mem_rows_of_mem_inputBucket {df : DataFrame} {freq : Freq} {e : Nat}
    {r : Row} (h : r ∈ inputBucket df freq e) : r ∈ df.rows :=
  (List.mem_filter.mp h).1

lemma resampledOut_colSum_eq (df : DataFrame) (freq : Freq)
    (hnum : ∀ r ∈ df.rows, ∀ c' ∈ df.cols, c' ≠ "date" →
      isNumCell (rowCell r c') = true)
    (c : String) (hc : c ∈ df.cols)
    (h1 : containsSubstring c "cumulative" = false)
    (h2 : strStartsWith c "total_" = true) :
    colSum (resampledOut df freq) c = colSum df c := by
  have hcd : c ≠ "date" := by intro h; subst h; exact absurd h2 (by decide)
  have hc' : c ∈ cleanCols df := by
    unfold cleanCols
    exact (List.mem_erase_of_ne hcd).mpr hc
  have hrule : aggRuleOf (cleanCols df) c = .sum := aggRuleOf_of_total _ c h1 h2
  have hq : ∀ e ∈ binsOf df freq,
      qOf (applyAgg .sum ((inputBucket df freq e).map (fun r => rowCell r c)))
        = ((inputBucket df freq e).map (fun r => qOf (rowCell r c))).sum := by
    intro e _
    show ((((inputBucket df freq e).map (fun r => rowCell r c)).filterMap
      cellNum?).sum : ℚ) = _
    rw [filterMap_cellNum_of_num (inputBucket df freq e) (fun r => rowCell r c)
      (fun r hr => hnum r (mem_rows_of_mem_inputBucket hr) c hc hcd)]
  unfold colSum
  rw [resampledOut_col df freq c hc' hcd, hrule,
    filterMap_cellNum_of_num (binsOf df freq)
      (fun e => applyAgg .sum ((inputBucket df freq e).map (fun r => rowCell r c)))
      (fun e _ => rfl),
    List.map_congr_left hq]
  unfold colCells
  rw [filterMap_cellNum_of_num df.rows (fun r => rowCell r c)
    (fun r hr => hnum r hr c hc hcd)]
  unfold inputBucket
  exact sum_filter_partition (fun r => bucketEnd freq (dateOf r))
    (fun r => qOf (rowCell r c)) df.rows (binsOf df freq)
    (binsOf_nodup df freq) (mem_binsOf df freq)

lemma applyAgg_mean_value (l : List Row) (c : String)
    (hnum : ∀ r ∈ l, isNumCell (rowCell r c) = true) (hne : l ≠ []) :
    applyAgg .mean (l.map (fun r => rowCell r c))
      = .num (arithMean ((l.map (fun r => rowCell r c)).filterMap cellNum?)) := by
  have hfm := filterMap_cellNum_of_num l (fun r => rowCell r c) hnum
  simp only [applyAgg, hfm]
  cases l with
  | nil => exact absurd rfl hne
  | cons r l' => rfl

lemma applyAgg_last_of_max (df : DataFrame) (freq : Freq) (c : String) (e : Nat)
    (hnum_bucket : ∀ r ∈ inputBucket df freq e, isNumCell (rowCell r c) = true)
    (hsorted : df.rows.Pairwise (fun r1 r2 => dateOf r1 < dateOf r2))
    (rlast : Row) (hmem : rlast ∈ inputBucket df freq e)
    (hmax : ∀ r2 ∈ inputBucket df freq e, dateOf r2 ≤ dateOf rlast) :
    applyAgg .last ((inputBucket df freq e).map (fun r => rowCell r c))
      = rowCell rlast c := by
  have hpw : (inputBucket df freq e).Pairwise (fun r1 r2 => dateOf r1 < dateOf r2) :=
    List.Pairwise.sublist (List.filter_sublist _) hsorted
  have hlast : (inputBucket df freq e).getLast? = some rlast :=
    getLast_of_max dateOf _ hpw rlast hmem hmax
  have hfil : ((inputBucket df freq e).map (fun r => rowCell r c)).filter
      (fun x => x ≠ Cell.na) = (inputBucket df freq e).map (fun r => rowCell r c) :=
    List.filter_eq_self.mpr (by
      intro a ha
      obtain ⟨r, hr, rfl⟩ := List.mem_map.mp ha
      exact decide_eq_true (isNumCell_ne_na (hnum_bucket r hr)))
  simp only [applyAgg, hfil, List.getLast?_map, hlast]
  rfl

lemma resampledOut_cellAt (df : DataFrame) (freq : Freq) (e : Nat)
    (he : e ∈ binsOf df freq) :
    outRowAt (resampledOut df freq) e
      = some (("date", Cell.date e) :: (cleanCols df).map (fun c =>
          (c, applyAgg (aggRuleOf (cleanCols df) c)
                ((bucketRows freq e (cleanRows df)).map
                  (fun p => rowCell p.2 c))))) := by
  unfold outRowAt resampledOut
  exact find_outRow _ e _ he (fun e' => rfl)

lemma resampledOut_cell_value (df : DataFrame) (freq : Freq) (c : String)
    (e : Nat) (hc' : c ∈ cleanCols df) (hcd : c ≠ "date")
    (he : e ∈ binsOf df freq) :
    (outRowAt (resampledOut df freq) e).map (fun r => rowCell r c)
      = some (applyAgg (aggRuleOf (cleanCols df) c)
          ((inputBucket df freq e).map (fun r => rowCell r c))) := by
  rw [resampledOut_cellAt df freq e he]
  simp only [Option.map_some']
  rw [rowCell_build e (cleanCols df) _ c hc' hcd, bucketCells_eq df freq e c hcd]

/-- C7 (amended).  For every daily input table (strictly increasing dates,
no missing values, numeric data columns) and every aggregating horizon,
`aggregate_trade_data` succeeds and: preserves the grand total of every
column whose name starts with `total_` and does not contain `"cumulative"`;
sets each nonempty bucket of a price-named column matching no
higher-precedence predicate to the arithmetic mean of that bucket's daily
values; and sets each bucket of a cumulative-named column to the value at
the latest date in the bucket. -/
theorem aggregate_bucket_rules (df : DataFrame) (period : String) (freq : Freq)
    (hfreq : freqOfPeriod? (strUpper period) = some freq)
    (hdate : "date" ∈ df.cols) (hnd : df.cols.Nodup)
    (hnum : ∀ r ∈ df.rows, ∀ c ∈ df.cols, c ≠ "date" →
      isNumCell (rowCell r c) = true)
    (hdat : ∀ r ∈ df.rows, isDateCell (rowCell r "date") = true)
    (hsorted : df.rows.Pairwise (fun r1 r2 => dateOf r1 < dateOf r2)) :
    aggIsOk (aggregate_trade_data df period) = true
    ∧ (∀ c ∈ df.cols, strStartsWith c "total_" = true →
        containsSubstring c "cumulative" = false →
        resultColSum (aggregate_trade_data df period) c = some (colSum df c))
    ∧ (∀ c ∈ df.cols, containsSubstring (strLower c) "price" = true →
        containsSubstring c "cumulative" = false →
        strStartsWith c "total_" = false →
        ∀ e : Nat, inputBucket df freq e ≠ [] →
          resultCellAt (aggregate_trade_data df period) e c
            = some (.num (arithMean (((inputBucket df freq e).map
                (fun r => rowCell r c)).filterMap cellNum?))))
    ∧ (∀ c ∈ df.cols, containsSubstring c "cumulative" = true →
        ∀ e : Nat, ∀ rlast ∈ inputBucket df freq e,
          (∀ r2 ∈ inputBucket df freq e, dateOf r2 ≤ dateOf rlast) →
          resultCellAt (aggregate_trade_data df period) e c
            = some (rowCell rlast c)) := by
  have heval := aggregate_eval df period freq hfreq hdate hnd hnum hdat
  refine ⟨?_, ?_, ?_, ?_⟩
  · rw [heval]; rfl
  · intro c hc h2 h1
    rw [heval]
    show some (colSum (resampledOut df freq) c) = _
    rw [resampledOut_colSum_eq df freq hnum c hc h1 h2]
  · intro c hc hp h1 h2 e hne
    have hcd : c ≠ "date" := by
      intro h; subst h; exact absurd hp (by decide)
    have hc' : c ∈ cleanCols df := by
      unfold cleanCols
      exact (List.mem_erase_of_ne hcd).mpr hc
    have he := mem_binsOf_of_bucket_ne_nil df freq e hne
    rw [heval]
    show (outRowAt (resampledOut df freq) e).map (fun r => rowCell r c) = _
    rw [resampledOut_cell_value df freq c e hc' hcd he,
      aggRuleOf_of_other (cleanCols df) c h1 h2,
      applyAgg_mean_value (inputBucket df freq e) c
        (fun r hr => hnum r (mem_rows_of_mem_inputBucket hr) c hc hcd) hne]
  · intro c hc h1 e rlast hmem hmax
    have hcd : c ≠ "date" := by
      intro h; subst h; exact absurd h1 (by decide)
    have hc' : c ∈ cleanCols df := by
      unfold cleanCols
      exact (List.mem_erase_of_ne hcd).mpr hc
    have hne : inputBucket df freq e ≠ [] := fun h => by
      rw [h] at hmem; cases hmem
    have he := mem_binsOf_of_bucket_ne_nil df freq e hne
    rw [heval]
    show (outRowAt (resampledOut df freq) e).map (fun r => rowCell r c) = _
    rw [resampledOut_cell_value df freq c e hc' hcd he,
      aggRuleOf_of_cumulative (cleanCols df) c hc' h1,
      applyAgg_last_of_max df freq c e
        (fun r hr => hnum r (mem_rows_of_mem_inputBucket hr) c hc hcd)
        hsorted rlast hmem hmax]

/-- C7 witness: on a 3-day table spanning two weeks under horizon `6M`,
the `total_volume` grand total is preserved (60), the week-ending-day-3
bucket's `price` is the mean of its two days ((2+4)/2 = 3), and each
week's `cumulative_x` is the value at its latest date. -/
theorem aggregate_bucket_rules_witness :
    resultColSum (aggregate_trade_data dfDaily "6M") "total_volume" = some 60
      ∧ colSum dfDaily "total_volume" = 60
      ∧ resultCellAt (aggregate_trade_data dfDaily "6M") 3 "price" = some (.num 3)
      ∧ resultCellAt (aggregate_trade_data dfDaily "6M") 10 "cumulative_x"
          = some (.num 6) := by
  obtain ⟨h0, ha, hb, hc⟩ := aggregate_bucket_rules dfDaily "6M" .W rfl
    (by decide) (by decide) (by decide) (by decide) (by decide)
  refine ⟨?_, by with_unfolding_all rfl, ?_, ?_⟩
  · exact (ha "total_volume" (by decide) (by decide) (by decide)).trans
      (by with_unfolding_all rfl)
  · exact (hb "price" (by decide) (by decide) (by decide) (by decide) 3
      (by decide)).trans (by with_unfolding_all rfl)
  · exact (hc "cumulative_x" (by decide) (by decide) 10
      [("date", .date 8), ("total_volume", .num 30), ("price", .num 6),
       ("cumulative_x", .num 6), ("other", .num 9)]
      (by decide) (by decide)).trans (by with_unfolding_all rfl)

/-- C7 counterexample.  The claim as stated fails: a column named
`total_cumulative` starts with `total_` but takes the cumulative rule
(`last`), so its grand total is not preserved (bucket value 2 vs input
total 3); a column named `cumulative_price` contains `price` but its
bucket value is the last value (3), not the bucket mean (2). -/
theorem aggregate_bucket_rules_counterexample :
    strStartsWith "total_cumulative" "total_" = true
      ∧ resultColSum (aggregate_trade_data dfTotalCum "6M") "total_cumulative"
          = some 2
      ∧ colSum dfTotalCum "total_cumulative" = 3
      ∧ resultColSum (aggregate_trade_data dfTotalCum "6M") "total_cumulative"
          ≠ some (colSum dfTotalCum "total_cumulative")
      ∧ containsSubstring (strLower "cumulative_price") "price" = true
      ∧ resultCellAt (aggregate_trade_data dfCumPrice "6M") 3 "cumulative_price"
          = some (.num 3)
      ∧ arithMean [1, 3] = 2
      ∧ resultCellAt (aggregate_trade_data dfCumPrice "6M") 3 "cumulative_price"
          ≠ some (.num (arithMean [1, 3])) := by
  refine ⟨by decide, by with_unfolding_all rfl, by with_unfolding_all rfl,
    ?_, by decide, by with_unfolding_all rfl, by with_unfolding_all rfl, ?_⟩
  · rw [show resultColSum (aggregate_trade_data dfTotalCum "6M") "total_cumulative"
        = some 2 from by with_unfolding_all rfl,
      show colSum dfTotalCum "total_cumulative" = 3 from by with_unfolding_all rfl]
    intro hcon
    have : (2 : ℚ) = 3 := Option.some.inj hcon
    norm_num at this
  · rw [show resultCellAt (aggregate_trade_data dfCumPrice "6M") 3 "cumulative_price"
        = some (.num 3) from by with_unfolding_all rfl,
      show arithMean [1, 3] = (2 : ℚ) from by with_unfolding_all rfl]
    intro hcon
    have h1 : Cell.num 3 = Cell.num 2 := Option.some.inj hcon
    have h2 : (3 : ℚ) = 2 := by injection h1
    norm_num at h2
